import Mathlib

/-!
Shallow embedding of the yabai-master-stack-plugin window-management core
(`createWindowsManager` and the top-level error handler) and proofs about it.

The window manager keeps a snapshot `windowsData : List Window` of the tiled
windows reported by yabai together with an `expectedCurrentNumMainWindows`
heuristic parameter.  All classification functions are translated directly
from the TypeScript source.  JavaScript `number` values are modelled as `Int`
(frame coordinates can be negative on multi-display setups), runtime crashes
from accessing a field of `undefined` are modelled as `JsErr.typeError`, and
structured `throw new Error(...)` as `JsErr.error`.  External yabai commands
are modelled by an abstract environment `Env` that maps the current window
list and a command to the window list returned by the re-query that
`executeYabaiCommand` performs after every mutating command.
-/

inductive Split where
  | horizontal
  | vertical
  | nosplit
deriving DecidableEq

structure Frame where
  x : Int
  y : Int
  w : Int
  h : Int
deriving DecidableEq

structure Window where
  id : Nat
  pid : Nat
  app : String
  frame : Frame
  split : Split
  focused : Nat
deriving DecidableEq

/-- JavaScript failure modes: an unguarded runtime `TypeError` (a field access
on `undefined`, e.g. after a non-null assertion `!`) versus a structured
`throw new Error(message)`. -/
inductive JsErr where
  | typeError
  | error (message : String)
deriving DecidableEq

/-- Result of `isValidLayout`: `{status: true}` or `{status: false, reason}`. -/
inductive LayoutValidity where
  | valid
  | invalid (reason : String)
deriving DecidableEq

/-- The two mutating yabai commands issued by the manager:
`yabai -m window <id> --toggle split` and
`yabai -m window <id> --warp <target>`. -/
inductive Cmd where
  | toggleSplit (windowId : Nat)
  | warp (windowId : Nat) (targetWindowId : Nat)
deriving DecidableEq

/-- The mutable state of the windows manager object: the window snapshot and
the `expectedCurrentNumMainWindows` field. -/
structure WM where
  windowsData : List Window
  expectedCurrentNumMainWindows : Int
deriving DecidableEq

/-- Abstract model of the external yabai process: given the current window
list and a command, it yields the window list that the re-query in
`executeYabaiCommand` (`refreshWindowsData`) observes afterwards. -/
def Env : Type := List Window → Cmd → List Window

/-- `isStackWindow(window)`: `window.frame.x === 0`. -/
def isStackWindowB (window : Window) : Bool :=
  window.frame.x == 0

/-- `getTopRightWindow()`: the rightmost window among those sharing the lowest
y-coordinate.  On an empty snapshot the source reads
`this.windowsData[0].frame.y` of `undefined`, a runtime `TypeError`. -/
def getTopRightWindow : List Window → Except JsErr Window
  | [] => .error .typeError
  | w0 :: rest =>
    let lowestYCoordinate :=
      (w0 :: rest).foldl (fun acc w => if w.frame.y < acc then w.frame.y else acc) w0.frame.y
    match (w0 :: rest).filter (fun w => w.frame.y == lowestYCoordinate) with
    | [] => .error .typeError
    | t :: ts => .ok (ts.foldl (fun acc w => if w.frame.x > acc.frame.x then w else acc) t)

/-- `getTopLeftWindow()`: among windows with `frame.x === 0`, the one with the
lowest y-coordinate (the loop uses `<=`, so the last minimal one wins).  When
no window touches the left edge, `leftWindows[0]` is `undefined`. -/
def getTopLeftWindow (wins : List Window) : Option Window :=
  match wins.filter (fun w => w.frame.x == 0) with
  | [] => none
  | w0 :: rest =>
    some ((w0 :: rest).foldl (fun acc w => if w.frame.y ≤ acc.frame.y then w else acc) w0)

/-- Ordering used by
`eligibleWindows.sort((w1, w2) => w2.frame.x - w1.frame.x)`:
descending by `frame.x` (JavaScript `Array.prototype.sort` is stable, as is
`List.insertionSort`). -/
def xDescOrder (a b : Window) : Prop :=
  b.frame.x ≤ a.frame.x

instance : DecidableRel xDescOrder := fun a b => by
  unfold xDescOrder; infer_instance

instance : IsTotal Window xDescOrder :=
  ⟨fun a b => le_total b.frame.x a.frame.x⟩

instance : IsTrans Window xDescOrder :=
  ⟨fun _ _ _ h1 h2 => le_trans h2 h1⟩

/-- The pair-scanning loop of `getDividingLineXCoordinate`:
for each adjacent pair `eligibleWindows[i]`, `eligibleWindows[i+1]`, return
`curWindow.frame.x` as soon as the pair shares an x-coordinate and
`numWindowsToRightOfTopRightWindow + i + 2 >= expectedCurrentNumMainWindows`. -/
def findDividingPair (k : Nat) (m : Int) : List Window → Nat → Option Int
  | w1 :: w2 :: rest, i =>
    if w1.frame.x = w2.frame.x ∧ ((k + i + 2 : Nat) : Int) ≥ m then
      some w1.frame.x
    else
      findDividingPair k m (w2 :: rest) (i + 1)
  | _, _ => none

/-- `const nonStackWindows = this.windowsData.filter((w) => !this.isStackWindow(w))`. -/
def nonStackWindows (wins : List Window) : List Window :=
  wins.filter (fun w => !(isStackWindowB w))

/-- `const eligibleWindows = nonStackWindows.filter(x <= topRight.x).sort(x desc)`. -/
def eligibleWindows (wins : List Window) (topRightWindow : Window) : List Window :=
  List.insertionSort xDescOrder
    ((nonStackWindows wins).filter (fun w => decide (w.frame.x ≤ topRightWindow.frame.x)))

/-- `const numWindowsToRightOfTopRightWindow = nonStackWindows.length - eligibleWindows.length`. -/
def numWindowsToRightOfTopRightWindow (wins : List Window) (topRightWindow : Window) : Nat :=
  (nonStackWindows wins).length - (eligibleWindows wins topRightWindow).length

/-- Body of `getDividingLineXCoordinate()` once the top-right window has been
obtained. -/
def dividingLineFrom (wins : List Window) (m : Int) (topRightWindow : Window) : Int :=
  if m = 1 then topRightWindow.frame.x
  else if (numWindowsToRightOfTopRightWindow wins topRightWindow : Int) ≥ m then
    topRightWindow.frame.x
  else
    match findDividingPair (numWindowsToRightOfTopRightWindow wins topRightWindow) m
        (eligibleWindows wins topRightWindow) 0 with
    | some x => x
    | none => topRightWindow.frame.x

/-- `getDividingLineXCoordinate()`, with `m` standing for the
`this.expectedCurrentNumMainWindows` field it reads. -/
def getDividingLineXCoordinate (wins : List Window) (m : Int) : Except JsErr Int :=
  match getTopRightWindow wins with
  | .error e => .error e
  | .ok topRightWindow => .ok (dividingLineFrom wins m topRightWindow)

/-- `isMainWindow(window)`: `window.frame.x >= this.getDividingLineXCoordinate()`.
The `.error` branch is unreachable whenever `window` is a member of a
non-empty snapshot. -/
def isMainWindowB (wins : List Window) (m : Int) (window : Window) : Bool :=
  match getDividingLineXCoordinate wins m with
  | .ok l => decide (window.frame.x ≥ l)
  | .error _ => false

/-- `isMiddleWindow(window)`: neither a stack window nor a main window. -/
def isMiddleWindowB (wins : List Window) (m : Int) (window : Window) : Bool :=
  !(isStackWindowB window) && !(isMainWindowB wins m window)

/-- `getStackWindows()`. -/
def getStackWindows (wins : List Window) : List Window :=
  wins.filter (fun w => isStackWindowB w)

/-- `getMainWindows()`: computes the dividing line once, then filters. -/
def getMainWindows (wins : List Window) (m : Int) : Except JsErr (List Window) :=
  match getDividingLineXCoordinate wins m with
  | .error e => .error e
  | .ok l => .ok (wins.filter (fun w => decide (w.frame.x ≥ l)))

/-- `getMiddleWindows()`: filters with the per-window `isMiddleWindow`
predicate (total even on an empty snapshot, since the predicate then never
runs). -/
def getMiddleWindows (wins : List Window) (m : Int) : List Window :=
  wins.filter (fun w => isMiddleWindowB wins m w)

/-- The filter in `columnizeStackWindows`:
`this.windowsData.filter((window) => !this.isMainWindow(window))`. -/
def getNonMainWindows (wins : List Window) (m : Int) : List Window :=
  wins.filter (fun w => !(isMainWindowB wins m w))

/-- `getWidestStackWindow()`: widest window among the stack windows (strict
`>`, so the first widest one wins); `undefined` when there is none. -/
def getWidestStackWindow (wins : List Window) : Option Window :=
  (getStackWindows wins).foldl
    (fun acc w =>
      match acc with
      | none => some w
      | some b => if w.frame.w > b.frame.w then some w else some b)
    none

/-- `getWidestMainWindow()`: widest main window, or `undefined`. -/
def getWidestMainWindow (wins : List Window) (m : Int) : Except JsErr (Option Window) :=
  match getMainWindows wins m with
  | .error e => .error e
  | .ok mains =>
    .ok (mains.foldl
      (fun acc w =>
        match acc with
        | none => some w
        | some b => if w.frame.w > b.frame.w then some w else some b)
      none)

/-- `getUpdatedWindowData(window)`:
`this.windowsData.find((win) => window.id === win.id)`; the source applies a
non-null assertion, so a missing id crashes at the use site. -/
def getUpdatedWindowData (s : WM) (window : Window) : Option Window :=
  s.windowsData.find? (fun win => window.id == win.id)

/-- `doesStackExist()`: `topRightWindow.frame.x !== 0`. -/
def doesStackExist (wins : List Window) : Except JsErr Bool :=
  match getTopRightWindow wins with
  | .error e => .error e
  | .ok topRightWindow => .ok (decide (topRightWindow.frame.x ≠ 0))

/-- `isValidLayout({targetNumMainWindows})`: the number of main windows must
equal the target, and no window may classify as middle (the first offending
window's `app` name is reported). -/
def isValidLayout (wins : List Window) (m : Int) (targetNumMainWindows : Int) :
    Except JsErr LayoutValidity :=
  match getMainWindows wins m with
  | .error e => .error e
  | .ok mains =>
    if targetNumMainWindows ≠ (mains.length : Int) then
      .ok (.invalid
        ("Number of main windows does not equal expected number of main windows (" ++
          toString mains.length ++ "/" ++ toString m ++ ")"))
    else
      match wins.find? (fun w => isMiddleWindowB wins m w) with
      | some w => .ok (.invalid ("A middle window (" ++ w.app ++ ") was detected."))
      | none => .ok .valid

/-- `executeYabaiCommand(command)`: runs the external command and immediately
calls `refreshWindowsData()`, replacing the snapshot with the re-query
result. -/
def executeYabaiCommand (env : Env) (s : WM) (c : Cmd) : Cmd × WM :=
  (c, { s with windowsData := env s.windowsData c })

/-- Loop body of `columnizeStackWindows`: for each captured stack window, look
up its updated data (crashing like the source's non-null assertion when the
id has disappeared) and toggle its split if it is vertical. -/
def columnizeLoop (env : Env) : WM → List Window → List Cmd × Except JsErr WM
  | s, [] => ([], .ok s)
  | s, stackWindow :: rest =>
    match getUpdatedWindowData s stackWindow with
    | none => ([], .error .typeError)
    | some window =>
      if window.split == .vertical then
        let (c, s') := executeYabaiCommand env s (.toggleSplit window.id)
        let (tr, r) := columnizeLoop env s' rest
        (c :: tr, r)
      else
        columnizeLoop env s rest

/-- `columnizeStackWindows()`: normalize the split of every non-main window to
horizontal.  The window list is captured once before the loop. -/
def columnizeStackWindows (env : Env) (s : WM) : List Cmd × Except JsErr WM :=
  columnizeLoop env s (getNonMainWindows s.windowsData s.expectedCurrentNumMainWindows)

/-- `moveWindowToStack(window)`. -/
def moveWindowToStack (env : Env) (s : WM) (window : Window) : List Cmd × Except JsErr WM :=
  if s.windowsData.length == 2 then
    if window.split == .horizontal then
      let (c, s') := executeYabaiCommand env s (.toggleSplit window.id)
      ([c], .ok s')
    else ([], .ok s)
  else
    match columnizeStackWindows env s with
    | (tr, .error e) => (tr, .error e)
    | (tr, .ok s1) =>
      match getWidestStackWindow s1.windowsData with
      | none => (tr, .ok s1)
      | some stackWindow =>
        let (c, s2) := executeYabaiCommand env s1 (.warp window.id stackWindow.id)
        match getUpdatedWindowData s2 window with
        | none => (tr ++ [c], .error .typeError)
        | some window' =>
          if s2.windowsData.length == 2 then
            if window'.split == .horizontal then
              let (c2, s3) := executeYabaiCommand env s2 (.toggleSplit stackWindow.id)
              (tr ++ [c, c2], .ok s3)
            else (tr ++ [c], .ok s2)
          else
            if window'.split == .vertical then
              let (c2, s3) := executeYabaiCommand env s2 (.toggleSplit stackWindow.id)
              (tr ++ [c, c2], .ok s3)
            else (tr ++ [c], .ok s2)

/-- `moveWindowToMain(window)`. -/
def moveWindowToMain (env : Env) (s : WM) (window : Window) : List Cmd × Except JsErr WM :=
  match getWidestMainWindow s.windowsData s.expectedCurrentNumMainWindows with
  | .error e => ([], .error e)
  | .ok none => ([], .ok s)
  | .ok (some mainWindow) =>
    let (c, s1) := executeYabaiCommand env s (.warp window.id mainWindow.id)
    match getUpdatedWindowData s1 window with
    | none => ([c], .error .typeError)
    | some window' =>
      if window'.split == .vertical then
        let (c2, s2) := executeYabaiCommand env s1 (.toggleSplit mainWindow.id)
        ([c, c2], .ok s2)
      else ([c], .ok s1)

/-- Warp loop of `createStack`: every window other than the captured top-right
and top-left window is warped into the top-left window's container.  When no
window touches the left edge, `topLeftWindow` is `undefined` and
`topLeftWindow.id` crashes. -/
def createStackWarpLoop (env : Env) (topRightWindow : Window) (topLeftWindow? : Option Window) :
    WM → List Window → List Cmd × Except JsErr WM
  | s, [] => ([], .ok s)
  | s, window :: rest =>
    if window == topRightWindow || (match topLeftWindow? with
        | some tl => window == tl
        | none => false) then
      createStackWarpLoop env topRightWindow topLeftWindow? s rest
    else
      match topLeftWindow? with
      | none => ([], .error .typeError)
      | some topLeftWindow =>
        let (c, s') := executeYabaiCommand env s (.warp window.id topLeftWindow.id)
        let (tr, r) := createStackWarpLoop env topRightWindow topLeftWindow? s' rest
        (c :: tr, r)

/-- `createStack()`: toggle the top-right window's split to vertical if it is
horizontal, warp every other window (except the top-left one) into the
top-left window's container, then columnize the stack windows. -/
def createStack (env : Env) (s : WM) : List Cmd × Except JsErr WM :=
  match getTopRightWindow s.windowsData with
  | .error e => ([], .error e)
  | .ok topRightWindow =>
    let (tr0, s1) :=
      if topRightWindow.split == .horizontal then
        let (c, s') := executeYabaiCommand env s (.toggleSplit topRightWindow.id)
        ([c], s')
      else ([], s)
    let topLeftWindow? := getTopLeftWindow s1.windowsData
    match createStackWarpLoop env topRightWindow topLeftWindow? s1 s1.windowsData with
    | (tr1, .error e) => (tr0 ++ tr1, .error e)
    | (tr1, .ok s2) =>
      let (tr2, r) := columnizeStackWindows env s2
      (tr0 ++ tr1 ++ tr2, r)

/-- The "too many main windows" loop of `updateWindows`: pop the last window
of the sorted main-window array and move it to the stack, once per needed
iteration (`curNumMainWindows - targetNumMainWindows` times; a pop of an
exhausted array yields `undefined` and crashes at `mainWindow.app`). -/
def excessLoop (env : Env) : Nat → WM → List Window → List Cmd × Except JsErr WM
  | 0, s, _ => ([], .ok s)
  | Nat.succ n, s, mainWindows =>
    match mainWindows.getLast? with
    | none => ([], .error .typeError)
    | some mainWindow =>
      match moveWindowToStack env s mainWindow with
      | (tr, .error e) => (tr, .error e)
      | (tr, .ok s') =>
        let (tr2, r) := excessLoop env n s' mainWindows.dropLast
        (tr ++ tr2, r)

/-- Result of a phase of `updateWindows` that contains the unbounded
middle-window `while` loop: it may finish, throw, or (in the model) exhaust
its fuel, standing for a run of the source loop longer than the fuel. -/
inductive PhaseRes where
  | ok (s : WM)
  | thrown (e : JsErr)
  | diverged
deriving DecidableEq

inductive MidRes where
  | ok (s : WM) (cur : Int)
  | thrown (e : JsErr)
  | diverged
deriving DecidableEq

/-- The middle-window `while` loop of `updateWindows`: while any middle window
remains, move the first one to main when the running count is below target,
otherwise to the stack. -/
def middleLoop (env : Env) (targetNumMainWindows : Int) :
    Nat → WM → Int → List Cmd × MidRes
  | fuel, s, cur =>
    match getMiddleWindows s.windowsData s.expectedCurrentNumMainWindows with
    | [] => ([], .ok s cur)
    | middleWindow :: _ =>
      match fuel with
      | 0 => ([], .diverged)
      | Nat.succ fuel' =>
        if cur < targetNumMainWindows then
          match moveWindowToMain env s middleWindow with
          | (tr, .error e) => (tr, .thrown e)
          | (tr, .ok s') =>
            let (tr2, r) := middleLoop env targetNumMainWindows fuel' s' (cur + 1)
            (tr ++ tr2, r)
        else
          match moveWindowToStack env s middleWindow with
          | (tr, .error e) => (tr, .thrown e)
          | (tr, .ok s') =>
            let (tr2, r) := middleLoop env targetNumMainWindows fuel' s' cur
            (tr ++ tr2, r)

/-- The "not enough main windows" loop of `updateWindows`: pop the last entry
of the sorted stack-window array and move it to main, once per needed
iteration (`targetNumMainWindows - curNumMainWindows` times).  The pop is
unguarded: on an exhausted array it yields `undefined` and the subsequent
`stackWindow.app` access is a runtime `TypeError`. -/
def pullLoop (env : Env) : Nat → WM → List Window → List Cmd × Except JsErr WM
  | 0, s, _ => ([], .ok s)
  | Nat.succ n, s, stackWindows =>
    match stackWindows.getLast? with
    | none => ([], .error .typeError)
    | some stackWindow =>
      match moveWindowToMain env s stackWindow with
      | (tr, .error e) => (tr, .error e)
      | (tr, .ok s') =>
        let (tr2, r) := pullLoop env n s' stackWindows.dropLast
        (tr ++ tr2, r)

/-- Sort used on the excess main windows:
ascending y-coordinate, ties broken by ascending x-coordinate. -/
def mainSortOrder (a b : Window) : Prop :=
  a.frame.y < b.frame.y ∨ (a.frame.y = b.frame.y ∧ a.frame.x ≤ b.frame.x)

instance : DecidableRel mainSortOrder := fun a b => by
  unfold mainSortOrder; infer_instance

/-- Sort used on the stack windows before pulling:
descending x-coordinate, ties broken by descending y-coordinate. -/
def stackSortOrder (a b : Window) : Prop :=
  b.frame.x < a.frame.x ∨ (b.frame.x = a.frame.x ∧ b.frame.y ≤ a.frame.y)

instance : DecidableRel stackSortOrder := fun a b => by
  unfold stackSortOrder; infer_instance

/-- The `if (numWindows > 2)` block of `updateWindows`: remove excess main
windows, resolve middle windows, then pull stack windows into main. -/
def mainPhases (env : Env) (fuel : Nat) (s : WM) (targetNumMainWindows : Int) :
    List Cmd × PhaseRes :=
  match getMainWindows s.windowsData s.expectedCurrentNumMainWindows with
  | .error e => ([], .thrown e)
  | .ok mainWindows =>
    let curNumMainWindows : Int := mainWindows.length
    let (trA, resA) :=
      if curNumMainWindows > targetNumMainWindows then
        excessLoop env (curNumMainWindows - targetNumMainWindows).toNat s
          (List.insertionSort mainSortOrder mainWindows)
      else ([], .ok s)
    match resA with
    | .error e => (trA, .thrown e)
    | .ok s2 =>
      let curAfterExcess :=
        if curNumMainWindows > targetNumMainWindows then targetNumMainWindows
        else curNumMainWindows
      match middleLoop env targetNumMainWindows fuel s2 curAfterExcess with
      | (trB, .thrown e) => (trA ++ trB, .thrown e)
      | (trB, .diverged) => (trA ++ trB, .diverged)
      | (trB, .ok s3 cur3) =>
        let stackWindows := getStackWindows s3.windowsData
        let sortedStack := List.insertionSort stackSortOrder stackWindows
        match pullLoop env (targetNumMainWindows - cur3).toNat s3 sortedStack with
        | (trC, .error e) => (trA ++ trB ++ trC, .thrown e)
        | (trC, .ok s4) => (trA ++ trB ++ trC, .ok s4)

/-- Everything `updateWindows` does between the failed initial validity check
and the final re-validation: the conditional `createStack` call and, when
more than two windows exist, the three rebalancing loops.  The returned `Bool`
records whether `createStack` was invoked. -/
def updateWindowsPhases (env : Env) (fuel : Nat) (s : WM) (targetNumMainWindows : Int) :
    List Cmd × Bool × PhaseRes :=
  let numWindows := s.windowsData.length
  let (tr1, calledCreateStack, res1) :=
    if targetNumMainWindows ≠ (numWindows : Int) then
      match doesStackExist s.windowsData with
      | .error e => (([] : List Cmd), false, Except.error e)
      | .ok true => ([], false, .ok s)
      | .ok false =>
        match createStack env s with
        | (tr, r) => (tr, true, r)
    else ([], false, .ok s)
  match res1 with
  | .error e => (tr1, calledCreateStack, .thrown e)
  | .ok s1 =>
    if numWindows > 2 then
      match mainPhases env fuel s1 targetNumMainWindows with
      | (tr2, r) => (tr1 ++ tr2, calledCreateStack, r)
    else (tr1, calledCreateStack, .ok s1)

/-- Overall result of one `updateWindows` invocation. -/
structure UpdateResult where
  trace : List Cmd
  calledCreateStack : Bool
  result : PhaseRes
deriving DecidableEq

/-- `updateWindows({targetNumMainWindows})`: validate (returning immediately
when already valid), rebalance, re-validate (throwing a structured `Error`
carrying the initial failure reason when still invalid), and finally persist
the target as the new `expectedCurrentNumMainWindows`. -/
def updateWindows (env : Env) (fuel : Nat) (s : WM) (targetNumMainWindows : Int) :
    UpdateResult :=
  match isValidLayout s.windowsData s.expectedCurrentNumMainWindows targetNumMainWindows with
  | .error e => ⟨[], false, .thrown e⟩
  | .ok .valid => ⟨[], false, .ok s⟩
  | .ok (.invalid reason0) =>
    match updateWindowsPhases env fuel s targetNumMainWindows with
    | (tr, called, .thrown e) => ⟨tr, called, .thrown e⟩
    | (tr, called, .diverged) => ⟨tr, called, .diverged⟩
    | (tr, called, .ok s4) =>
      match isValidLayout s4.windowsData s4.expectedCurrentNumMainWindows
          targetNumMainWindows with
      | .error e => ⟨tr, called, .thrown e⟩
      | .ok (.invalid _) =>
        ⟨tr, called,
          .thrown (.error ("updateLayout() ended with an invalid layout; reason: " ++ reason0))⟩
      | .ok .valid =>
        ⟨tr, called, .ok { s4 with expectedCurrentNumMainWindows := targetNumMainWindows }⟩

/-- An error value reaching `handleMasterError` in `src/utils/main.ts`: a
message and an optional `code` field. -/
structure JsError where
  message : String
  code : Option String
deriving DecidableEq

/-- Observable console behaviour of the top-level error handler. -/
inductive LogAction where
  | info (msg : String)
  | logError (e : JsError)
deriving DecidableEq

/-- `handleMasterError(error)`: `console.info('Lock found...aborting')` when
`error.code === 'ELOCKED'`, otherwise `console.error(error)`.  In both cases
the handler returns normally (the error is consumed by the `.catch`). -/
def handleMasterError (error : JsError) : LogAction :=
  if error.code == some "ELOCKED" then .info "Lock found...aborting"
  else .logError error

/-- The last two elements of a list, used to characterise the pair scan of
`getDividingLineXCoordinate` when the arithmetic condition only admits the
final adjacent pair. -/
def lastTwo : List Window → Option (Window × Window)
  | [] => none
  | [_] => none
  | [a, b] => some (a, b)
  | _ :: b :: c :: rest => lastTwo (b :: c :: rest)

/-- The dividing-line algorithm transcribed from the specification's own
wording, for comparison against `getDividingLineXCoordinate`: with `R` the
top-right window, return `R.frame.x` when the expected count is 1; otherwise,
with `N` the non-stack windows, `E` the members of `N` having
`frame.x <= R.frame.x` sorted by `frame.x` descending, and `k = |N| - |E|`,
return `R.frame.x` when `k >= m`; otherwise the `frame.x` of the first
adjacent pair `E[i]`, `E[i+1]` in that sorted order with equal `frame.x` and
`k + i + 2 >= m`; and `R.frame.x` when no such pair exists. -/
def dividingLineSpec (wins : List Window) (m : Int) : Except JsErr Int :=
  match getTopRightWindow wins with
  | .error e => .error e
  | .ok topRight =>
    if m = 1 then .ok topRight.frame.x
    else
      if (numWindowsToRightOfTopRightWindow wins topRight : Int) ≥ m then .ok topRight.frame.x
      else
        match (((eligibleWindows wins topRight).zip (eligibleWindows wins topRight).tail).enum).find?
            (fun p => p.2.1.frame.x == p.2.2.frame.x &&
              decide (((numWindowsToRightOfTopRightWindow wins topRight + p.1 + 2 : Nat) : Int) ≥ m)) with
        | some p => .ok p.2.1.frame.x
        | none => .ok topRight.frame.x

/-! ### Concrete snapshots used by the witnesses and counterexamples -/

/-- A single full-width window on the left edge (spec Scenario A). -/
def c1a : Window := ⟨1, 11, "A", ⟨0, 0, 1280, 800⟩, .vertical, 0⟩

def c1wins0 : List Window := [c1a]

def c1s : Window := ⟨1, 11, "A", ⟨0, 0, 640, 800⟩, .vertical, 0⟩

def c1b : Window := ⟨2, 12, "B", ⟨640, 0, 640, 800⟩, .vertical, 0⟩

/-- A two-window master/stack split with a positive dividing line. -/
def c1wins : List Window := [c1s, c1b]

def c4p1 : Window := ⟨1, 1, "P1", ⟨640, 0, 640, 800⟩, .vertical, 0⟩

def c4p2 : Window := ⟨2, 2, "P2", ⟨320, 100, 320, 400⟩, .vertical, 0⟩

def c4p3 : Window := ⟨3, 3, "P3", ⟨320, 200, 320, 400⟩, .vertical, 0⟩

/-- Top-right window at x = 640 and a vertical split boundary at x = 320. -/
def c4wins : List Window := [c4p1, c4p2, c4p3]

def c9env : Env := fun wins _ => wins

def c9s : WM := ⟨[⟨1, 1, "S", ⟨0, 0, 640, 800⟩, .vertical, 0⟩], 1⟩

def c6v1 : Window := ⟨1, 1, "V1", ⟨0, 0, 640, 400⟩, .vertical, 0⟩

def c6v2 : Window := ⟨2, 2, "V2", ⟨0, 400, 640, 400⟩, .vertical, 0⟩

/-- Two windows stacked on the left edge: the stack region is absent. -/
def c6s : WM := ⟨[c6v1, c6v2], 1⟩

def c6env : Env := fun wins _ => wins

def c7w1 : Window := ⟨1, 1, "W1", ⟨0, 0, 640, 400⟩, .vertical, 0⟩

def c7w2 : Window := ⟨2, 2, "W2", ⟨0, 400, 640, 400⟩, .vertical, 0⟩

def c7s : WM := ⟨[c7w1, c7w2], 1⟩

def c7env : Env := fun wins _ => wins

def c7reason : String :=
  "Number of main windows does not equal expected number of main windows (2/1)"

def c10u1 : Window := ⟨1, 1, "U1", ⟨0, 0, 640, 800⟩, .vertical, 0⟩

def c10u2 : Window := ⟨2, 2, "U2", ⟨640, 0, 640, 800⟩, .vertical, 0⟩

/-- An already-valid layout for a target of one main window. -/
def c10sValid : WM := ⟨[c10u1, c10u2], 1⟩

def c10env : Env := fun wins _ => wins

def c10d1 : Window := ⟨1, 1, "D1", ⟨0, 0, 600, 800⟩, .vertical, 0⟩

def c10d2 : Window := ⟨2, 2, "D2", ⟨300, 100, 600, 400⟩, .horizontal, 0⟩

def c10d3 : Window := ⟨3, 3, "D3", ⟨640, 0, 640, 400⟩, .vertical, 0⟩

/-- An invalid layout (a middle window at x = 300) that one warp repairs. -/
def c10sPass : WM := ⟨[c10d1, c10d2, c10d3], 1⟩

def c10d2' : Window := ⟨2, 2, "D2", ⟨640, 400, 640, 400⟩, .horizontal, 0⟩

def c10winsFixed : List Window := [c10d1, c10d2', c10d3]

def c10envPass : Env := fun _ _ => c10winsFixed

def c5w1 : Window := ⟨1, 1, "A1", ⟨0, 0, 100, 800⟩, .vertical, 0⟩

def c5w2 : Window := ⟨2, 2, "A2", ⟨300, 1, 200, 400⟩, .vertical, 0⟩

def c5w3 : Window := ⟨3, 3, "A3", ⟨-4, 2, 50, 400⟩, .horizontal, 0⟩

/-- Initial snapshot of the idempotence counterexample: a middle window at a
negative x-coordinate (yabai reports negative frames on displays left of the
main one). -/
def c5s0 : WM := ⟨[c5w1, c5w2, c5w3], 2⟩

def c5w2' : Window := ⟨2, 2, "A2", ⟨-4, 1, 200, 400⟩, .horizontal, 0⟩

def c5wins1 : List Window := [c5w1, c5w2', c5w3]

def c5env : Env := fun _ _ => c5wins1

/-- Manager state after the first (successful) rebalancing pass. -/
def c5s1 : WM := ⟨c5wins1, 3⟩

def c5v1 : Window := ⟨1, 1, "B1", ⟨0, 0, 640, 800⟩, .vertical, 0⟩

def c5v2 : Window := ⟨2, 2, "B2", ⟨640, 0, 640, 800⟩, .vertical, 0⟩

def c5vs : WM := ⟨[c5v1, c5v2], 1⟩

def c5venv : Env := fun wins _ => wins

/-! ### Helper lemmas -/

theorem mem_getStackWindows {wins : List Window} {w : Window} :
    w ∈ getStackWindows wins ↔ w ∈ wins ∧ w.frame.x = 0 := by
  simp [getStackWindows, isStackWindowB, List.mem_filter]

theorem mem_getMiddleWindows {wins : List Window} {m L : Int} {w : Window}
    (hL : getDividingLineXCoordinate wins m = .ok L) :
    w ∈ getMiddleWindows wins m ↔ w ∈ wins ∧ w.frame.x ≠ 0 ∧ ¬(w.frame.x ≥ L) := by
  simp [getMiddleWindows, isMiddleWindowB, isMainWindowB, isStackWindowB, hL,
    List.mem_filter, and_assoc]

theorem getMainWindows_eq {wins : List Window} {m L : Int}
    (hL : getDividingLineXCoordinate wins m = .ok L) :
    getMainWindows wins m = .ok (wins.filter (fun w => decide (w.frame.x ≥ L))) := by
  unfold getMainWindows
  rw [hL]

theorem getTopRightWindow_error {wins : List Window} {e : JsErr}
    (h : getTopRightWindow wins = .error e) : e = .typeError := by
  cases wins with
  | nil =>
    exact (Except.error.inj h).symm
  | cons w0 rest =>
    unfold getTopRightWindow at h
    dsimp only at h
    split at h
    · exact (Except.error.inj h).symm
    · exact Except.noConfusion h

theorem getDividingLineXCoordinate_error {wins : List Window} {m : Int} {e : JsErr}
    (h : getDividingLineXCoordinate wins m = .error e) : e = .typeError := by
  unfold getDividingLineXCoordinate at h
  split at h
  · rename_i e' heq
    have he : e' = e := Except.error.inj h
    subst he
    exact getTopRightWindow_error heq
  · exact Except.noConfusion h

theorem getMainWindows_error {wins : List Window} {m : Int} {e : JsErr}
    (h : getMainWindows wins m = .error e) : e = .typeError := by
  unfold getMainWindows at h
  split at h
  · rename_i e' heq
    have he : e' = e := Except.error.inj h
    subst he
    exact getDividingLineXCoordinate_error heq
  · exact Except.noConfusion h

theorem getWidestMainWindow_error {wins : List Window} {m : Int} {e : JsErr}
    (h : getWidestMainWindow wins m = .error e) : e = .typeError := by
  unfold getWidestMainWindow at h
  split at h
  · rename_i e' heq
    have he : e' = e := Except.error.inj h
    subst he
    exact getMainWindows_error heq
  · exact Except.noConfusion h

theorem moveWindowToMain_error {env : Env} {s : WM} {w : Window} {tr : List Cmd} {e : JsErr}
    (h : moveWindowToMain env s w = (tr, .error e)) : e = .typeError := by
  unfold moveWindowToMain at h
  split at h
  · rename_i e' heq
    have h2 : Except.error e' = Except.error e := congrArg Prod.snd h
    have he : e' = e := Except.error.inj h2
    subst he
    exact getWidestMainWindow_error heq
  · exact Except.noConfusion (congrArg Prod.snd h)
  · dsimp only [executeYabaiCommand] at h
    split at h
    · have h2 := congrArg Prod.snd h
      exact (Except.error.inj h2).symm
    · split at h
      · exact Except.noConfusion (congrArg Prod.snd h)
      · exact Except.noConfusion (congrArg Prod.snd h)

theorem findDividingPair_mem :
    ∀ (l : List Window) (k : Nat) (m : Int) (i : Nat) (v : Int),
      findDividingPair k m l i = some v → ∃ w ∈ l, w.frame.x = v := by
  intro l
  induction l with
  | nil => intro k m i v h; simp [findDividingPair] at h
  | cons a t ih =>
    intro k m i v h
    cases t with
    | nil => simp [findDividingPair] at h
    | cons b rest =>
      rw [findDividingPair] at h
      split at h
      · exact ⟨a, List.mem_cons_self a _, Option.some.inj h⟩
      · obtain ⟨w, hw, hv⟩ := ih k m (i + 1) v h
        exact ⟨w, List.mem_cons_of_mem a hw, hv⟩

theorem lastTwo_eq_none : ∀ {l : List Window}, lastTwo l = none → l = [] ∨ ∃ a, l = [a] := by
  intro l
  induction l with
  | nil => intro _; exact Or.inl rfl
  | cons a t ih =>
    intro h
    cases t with
    | nil => exact Or.inr ⟨a, rfl⟩
    | cons b rest =>
      cases rest with
      | nil => exact Option.noConfusion h
      | cons c rest' =>
        have h' : lastTwo (b :: c :: rest') = none := h
        rcases ih h' with h1 | ⟨x, h1⟩
        · exact List.noConfusion h1
        · exact absurd (List.cons.inj h1).2 (by simp)

theorem lastTwo_mem : ∀ {l : List Window} {a b : Window},
    lastTwo l = some (a, b) → a ∈ l ∧ b ∈ l := by
  intro l
  induction l with
  | nil => intro a b h; exact Option.noConfusion h
  | cons x t ih =>
    intro a b h
    cases t with
    | nil => exact Option.noConfusion h
    | cons y rest =>
      cases rest with
      | nil =>
        have hp : (x, y) = (a, b) := Option.some.inj h
        have hx : x = a := (Prod.mk.inj hp).1
        have hy : y = b := (Prod.mk.inj hp).2
        subst hx; subst hy
        exact ⟨List.mem_cons_self _ _, List.mem_cons_of_mem _ (List.mem_cons_self _ _)⟩
      | cons z rest' =>
        have h' : lastTwo (y :: z :: rest') = some (a, b) := h
        obtain ⟨ha, hb⟩ := ih h'
        exact ⟨List.mem_cons_of_mem _ ha, List.mem_cons_of_mem _ hb⟩

theorem lastTwo_append : ∀ (l₁ : List Window) (w1 w2 : Window) (l₂ : List Window),
    lastTwo (l₁ ++ w1 :: w2 :: l₂) = lastTwo (w1 :: w2 :: l₂) := by
  intro l₁
  induction l₁ with
  | nil => intro w1 w2 l₂; rfl
  | cons a l₁' ih =>
    intro w1 w2 l₂
    cases l₁' with
    | nil => rfl
    | cons b l₁'' =>
      show lastTwo (a :: b :: (l₁'' ++ w1 :: w2 :: l₂)) = lastTwo (w1 :: w2 :: l₂)
      cases hsplit : l₁'' ++ w1 :: w2 :: l₂ with
      | nil => exact absurd hsplit (by simp)
      | cons c rest =>
        have h1 : lastTwo (a :: b :: c :: rest) = lastTwo (b :: c :: rest) := rfl
        rw [h1, ← hsplit]
        exact ih w1 w2 l₂

/-- When the arithmetic condition `k + i + 2 >= m` only admits the final
index, the pair scan reduces to inspecting the last two eligible windows. -/
theorem findDividingPair_budget (k : Nat) (m : Int) :
    ∀ (l : List Window) (i : Nat), m = ((k + i + l.length : Nat) : Int) →
      findDividingPair k m l i =
        (match lastTwo l with
        | some (a, b) => if a.frame.x = b.frame.x then some a.frame.x else none
        | none => none) := by
  intro l
  induction l with
  | nil => intro i h; rfl
  | cons a t ih =>
    intro i h
    cases t with
    | nil => rfl
    | cons b rest =>
      rw [findDividingPair]
      cases rest with
      | nil =>
        have harith : ((k + i + 2 : Nat) : Int) ≥ m := by
          rw [h]; simp
        have hlt : lastTwo [a, b] = some (a, b) := rfl
        rw [hlt]
        dsimp only
        by_cases hx : a.frame.x = b.frame.x
        · rw [if_pos ⟨hx, harith⟩, if_pos hx]
        · rw [if_neg (fun hc => hx hc.1), if_neg hx]
          rfl
      | cons c rest' =>
        have harith : ¬ (((k + i + 2 : Nat) : Int) ≥ m) := by
          rw [h]
          have hlen : k + i + 2 < k + i + (a :: b :: c :: rest').length := by
            simp [List.length_cons]
          intro hc
          have := Int.ofNat_le.mp hc
          omega
        rw [if_neg (by intro hc; exact harith hc.2)]
        have hm : m = ((k + (i + 1) + (b :: c :: rest').length : Nat) : Int) := by
          rw [h]
          have hlen : k + i + (a :: b :: c :: rest').length =
              k + (i + 1) + (b :: c :: rest').length := by
            simp [List.length_cons]; omega
          rw [hlen]
        rw [ih (i + 1) hm]
        rfl

/-- A successful pair scan exhibits an adjacent pair of eligible windows that
both carry the returned x-coordinate. -/
theorem findDividingPair_split (k : Nat) (m : Int) :
    ∀ (l : List Window) (i : Nat) (v : Int), findDividingPair k m l i = some v →
      ∃ l₁ w1 w2 l₂, l = l₁ ++ w1 :: w2 :: l₂ ∧ w1.frame.x = v ∧ w2.frame.x = v := by
  intro l
  induction l with
  | nil => intro i v h; exact Option.noConfusion h
  | cons a t ih =>
    intro i v h
    cases t with
    | nil => exact Option.noConfusion h
    | cons b rest =>
      rw [findDividingPair] at h
      split at h
      · rename_i hcond
        have hv : a.frame.x = v := Option.some.inj h
        exact ⟨[], a, b, rest, rfl, hv, hcond.1 ▸ hv⟩
      · obtain ⟨l₁, w1, w2, l₂, heq, h1, h2⟩ := ih (i + 1) v h
        exact ⟨a :: l₁, w1, w2, l₂, by rw [List.cons_append, ← heq], h1, h2⟩

theorem mem_eligibleWindows {wins : List Window} {R w : Window} :
    w ∈ eligibleWindows wins R ↔
      w ∈ wins ∧ w.frame.x ≠ 0 ∧ w.frame.x ≤ R.frame.x := by
  unfold eligibleWindows nonStackWindows
  rw [(List.perm_insertionSort xDescOrder _).mem_iff]
  simp only [List.mem_filter, isStackWindowB, Bool.not_eq_true', beq_eq_false_iff_ne,
    decide_eq_true_eq, and_assoc]

theorem sorted_eligibleWindows (wins : List Window) (R : Window) :
    List.Sorted xDescOrder (eligibleWindows wins R) :=
  List.sorted_insertionSort xDescOrder _

theorem foldl_pick_mem (p : Window → Window → Prop) [DecidableRel p] :
    ∀ (l : List Window) (acc : Window),
      l.foldl (fun a w => if p w a then w else a) acc ∈ acc :: l := by
  intro l
  induction l with
  | nil => intro acc; simp
  | cons w t ih =>
    intro acc
    rw [List.foldl_cons]
    by_cases hp : p w acc
    · rw [if_pos hp]
      rcases List.mem_cons.mp (ih w) with h | h
      · rw [h]
        exact List.mem_cons_of_mem _ (List.mem_cons_self _ _)
      · exact List.mem_cons_of_mem _ (List.mem_cons_of_mem _ h)
    · rw [if_neg hp]
      rcases List.mem_cons.mp (ih acc) with h | h
      · rw [h]
        exact List.mem_cons_self _ _
      · exact List.mem_cons_of_mem _ (List.mem_cons_of_mem _ h)

theorem getTopRightWindow_mem {wins : List Window} {R : Window}
    (h : getTopRightWindow wins = .ok R) : R ∈ wins := by
  cases wins with
  | nil => exact Except.noConfusion h
  | cons w0 rest =>
    unfold getTopRightWindow at h
    dsimp only at h
    split at h
    · exact Except.noConfusion h
    · rename_i t ts hfilter
      have hR : R = ts.foldl (fun acc w => if w.frame.x > acc.frame.x then w else acc) t :=
        (Except.ok.inj h).symm
      have hmem : ts.foldl (fun acc w => if w.frame.x > acc.frame.x then w else acc) t ∈
          t :: ts := foldl_pick_mem (fun w acc => w.frame.x > acc.frame.x) ts t
      rw [← hR] at hmem
      have hsub : R ∈ List.filter
          (fun w => w.frame.y ==
            List.foldl (fun acc w => if w.frame.y < acc then w.frame.y else acc)
              w0.frame.y (w0 :: rest)) (w0 :: rest) := by
        rw [hfilter]
        exact hmem
      exact (List.mem_filter.mp hsub).1

theorem dividingLineFrom_cases (wins : List Window) (m : Int) (R : Window) :
    dividingLineFrom wins m R = R.frame.x ∨
    findDividingPair (numWindowsToRightOfTopRightWindow wins R) m (eligibleWindows wins R) 0 =
      some (dividingLineFrom wins m R) := by
  unfold dividingLineFrom
  by_cases h1 : m = 1
  · rw [if_pos h1]; exact Or.inl rfl
  · rw [if_neg h1]
    by_cases h2 : (numWindowsToRightOfTopRightWindow wins R : Int) ≥ m
    · rw [if_pos h2]; exact Or.inl rfl
    · rw [if_neg h2]
      cases hs : findDividingPair (numWindowsToRightOfTopRightWindow wins R) m
          (eligibleWindows wins R) 0 with
      | none => exact Or.inl rfl
      | some v => exact Or.inr rfl

theorem dividingLineFrom_le_topRight (wins : List Window) (m : Int) (R : Window) :
    dividingLineFrom wins m R ≤ R.frame.x := by
  rcases dividingLineFrom_cases wins m R with h | h
  · rw [h]
  · obtain ⟨w, hw, hx⟩ := findDividingPair_mem _ _ _ _ _ h
    rw [← hx]
    exact (mem_eligibleWindows.mp hw).2.2

theorem dividingLineFrom_eq_topRight_of_small (wins : List Window) (m : Int) (R : Window)
    (hE : eligibleWindows wins R = [] ∨ eligibleWindows wins R = [R]) :
    dividingLineFrom wins m R = R.frame.x := by
  rcases dividingLineFrom_cases wins m R with h | h
  · exact h
  · rcases hE with hE | hE
    · rw [hE] at h; exact Option.noConfusion h
    · rw [hE] at h; exact Option.noConfusion h

/-- Dividing-line stability: on a snapshot with nonnegative x-coordinates in
which every window is on the left edge or at/right of the dividing line
computed for `m₀`, recomputing the dividing line with the main-window count
itself as the expected count yields the same coordinate. -/
theorem dividingLineFrom_stable (wins : List Window) (R : Window) (m₀ L₀ : Int)
    (hR : getTopRightWindow wins = .ok R)
    (hL₀ : dividingLineFrom wins m₀ R = L₀)
    (hx : ∀ w ∈ wins, 0 ≤ w.frame.x)
    (hmid : ∀ w ∈ wins, w.frame.x = 0 ∨ L₀ ≤ w.frame.x) :
    dividingLineFrom wins
      ((wins.filter (fun w => decide (w.frame.x ≥ L₀))).length : Int) R = L₀ := by
  by_cases hr0 : R.frame.x = 0
  · have hE : eligibleWindows wins R = [] := by
      apply List.eq_nil_iff_forall_not_mem.mpr
      intro w hw
      obtain ⟨hw1, hw2, hw3⟩ := mem_eligibleWindows.mp hw
      have h0 := hx w hw1
      rw [hr0] at hw3
      omega
    have hall : ∀ m : Int, dividingLineFrom wins m R = R.frame.x :=
      fun m => dividingLineFrom_eq_topRight_of_small wins m R (Or.inl hE)
    rw [hall, ← hL₀, hall]
  · have hRmem := getTopRightWindow_mem hR
    have hrpos : 0 < R.frame.x := lt_of_le_of_ne (hx R hRmem) (Ne.symm hr0)
    have hRE : R ∈ eligibleWindows wins R := mem_eligibleWindows.mpr ⟨hRmem, hr0, le_refl _⟩
    have hL₀le : L₀ ≤ R.frame.x := hL₀ ▸ dividingLineFrom_le_topRight wins m₀ R
    have hL₀pos : 0 < L₀ := by
      rcases dividingLineFrom_cases wins m₀ R with h | h
      · rw [hL₀] at h; omega
      · rw [hL₀] at h
        obtain ⟨w, hw, hwx⟩ := findDividingPair_mem _ _ _ _ _ h
        obtain ⟨hw1, hw2, _⟩ := mem_eligibleWindows.mp hw
        have := hx w hw1
        omega
    have hfiltereq : wins.filter (fun w => decide (w.frame.x ≥ L₀)) = nonStackWindows wins := by
      unfold nonStackWindows
      apply List.filter_congr
      intro w hw
      by_cases h0 : w.frame.x = 0
      · have hd : decide (w.frame.x ≥ L₀) = false := decide_eq_false (by rw [h0]; omega)
        rw [hd]
        simp [isStackWindowB, h0]
      · have hge : L₀ ≤ w.frame.x := by
          rcases hmid w hw with hc | hc
          · exact absurd hc h0
          · exact hc
        have hd : decide (w.frame.x ≥ L₀) = true := decide_eq_true hge
        rw [hd]
        simp [isStackWindowB, h0]
    have hEge : ∀ w ∈ eligibleWindows wins R, L₀ ≤ w.frame.x := by
      intro w hw
      obtain ⟨hw1, hw2, _⟩ := mem_eligibleWindows.mp hw
      rcases hmid w hw1 with hc | hc
      · exact absurd hc hw2
      · exact hc
    have hElen : (eligibleWindows wins R).length ≤ (nonStackWindows wins).length := by
      unfold eligibleWindows
      rw [(List.perm_insertionSort xDescOrder _).length_eq]
      exact List.length_filter_le _ _
    have hkE : numWindowsToRightOfTopRightWindow wins R + (eligibleWindows wins R).length =
        (nonStackWindows wins).length := by
      unfold numWindowsToRightOfTopRightWindow
      exact Nat.sub_add_cancel hElen
    rw [hfiltereq]
    by_cases hT1 : ((nonStackWindows wins).length : Int) = 1
    · have hN1 : (nonStackWindows wins).length = 1 := by exact_mod_cast hT1
      obtain ⟨a, ha⟩ := List.length_eq_one.mp hN1
      have hRN : R ∈ nonStackWindows wins := by
        unfold nonStackWindows
        rw [List.mem_filter]
        exact ⟨hRmem, by simp [isStackWindowB, hr0]⟩
      have haR : R = a := by rw [ha] at hRN; simpa using hRN
      have hEsing : eligibleWindows wins R = [R] := by
        unfold eligibleWindows
        rw [ha, ← haR]
        have hf : ([R] : List Window).filter (fun w => decide (w.frame.x ≤ R.frame.x)) = [R] := by
          simp
        rw [hf]
        rfl
      rw [hT1]
      have h1 : dividingLineFrom wins 1 R = R.frame.x := by
        unfold dividingLineFrom
        rw [if_pos rfl]
      rw [h1, ← hL₀, dividingLineFrom_eq_topRight_of_small wins m₀ R (Or.inr hEsing)]
    · have hEne : eligibleWindows wins R ≠ [] := by
        intro hnil; rw [hnil] at hRE; exact absurd hRE (List.not_mem_nil R)
      have hEpos : 0 < (eligibleWindows wins R).length := List.length_pos.mpr hEne
      unfold dividingLineFrom
      rw [if_neg hT1]
      have hklt : ¬ ((numWindowsToRightOfTopRightWindow wins R : Int) ≥
          ((nonStackWindows wins).length : Int)) := by
        have hke := hkE
        push_cast [← hke]
        omega
      rw [if_neg hklt]
      have hbudget : ((nonStackWindows wins).length : Int) =
          ((numWindowsToRightOfTopRightWindow wins R + 0 +
            (eligibleWindows wins R).length : Nat) : Int) := by
        have hn : (nonStackWindows wins).length =
            numWindowsToRightOfTopRightWindow wins R + 0 +
              (eligibleWindows wins R).length := by omega
        exact_mod_cast congrArg (fun n : Nat => (n : Int)) hn
      rw [findDividingPair_budget _ _ _ 0 hbudget]
      cases hlt : lastTwo (eligibleWindows wins R) with
      | none =>
        rcases lastTwo_eq_none hlt with hnil | ⟨a, ha⟩
        · exact absurd hnil hEne
        · have haR : R = a := by rw [ha] at hRE; simpa using hRE
          have hER : eligibleWindows wins R = [R] := by rw [ha, ← haR]
          dsimp only
          rw [← hL₀, dividingLineFrom_eq_topRight_of_small wins m₀ R (Or.inr hER)]
      | some p =>
        obtain ⟨a, b⟩ := p
        dsimp only
        obtain ⟨haE, hbE⟩ := lastTwo_mem hlt
        rcases dividingLineFrom_cases wins m₀ R with hcase | hpair
        · rw [hL₀] at hcase
          have hua := (mem_eligibleWindows.mp haE).2.2
          have hub := (mem_eligibleWindows.mp hbE).2.2
          have hla := hEge a haE
          have hlb := hEge b hbE
          have hva : a.frame.x = L₀ := by omega
          have hvb : b.frame.x = L₀ := by omega
          rw [if_pos (by omega : a.frame.x = b.frame.x)]
          exact hva
        · rw [hL₀] at hpair
          obtain ⟨l₁, w1, w2, l₂, heq, h1, h2⟩ := findDividingPair_split _ _ _ _ _ hpair
          cases l₂ with
          | nil =>
            have hlt2 : lastTwo (eligibleWindows wins R) = some (w1, w2) := by
              rw [heq, lastTwo_append]
              rfl
            rw [hlt] at hlt2
            have hab : (a, b) = (w1, w2) := Option.some.inj hlt2
            have ha' : a = w1 := (Prod.mk.inj hab).1
            have hb' : b = w2 := (Prod.mk.inj hab).2
            subst ha'; subst hb'
            rw [if_pos (by rw [h1, h2])]
            exact h1
          | cons c l₂' =>
            have hlt2 : lastTwo (eligibleWindows wins R) = lastTwo (w2 :: c :: l₂') := by
              rw [heq, lastTwo_append]
              rfl
            have hmem2 : a ∈ w2 :: c :: l₂' ∧ b ∈ w2 :: c :: l₂' :=
              lastTwo_mem (by rw [← hlt2, hlt])
            have hsorted := sorted_eligibleWindows wins R
            rw [heq] at hsorted
            have hsorted2 : List.Sorted xDescOrder (w1 :: w2 :: c :: l₂') :=
              (List.pairwise_append.mp hsorted).2.1
            have hsorted3 : List.Sorted xDescOrder (w2 :: c :: l₂') :=
              (List.sorted_cons.mp hsorted2).2
            have hub : ∀ y ∈ w2 :: c :: l₂', y.frame.x ≤ w2.frame.x := by
              intro y hy
              rcases List.mem_cons.mp hy with hy | hy
              · rw [hy]
              · exact (List.sorted_cons.mp hsorted3).1 y hy
            have hua := hub a hmem2.1
            have hub' := hub b hmem2.2
            have hla := hEge a haE
            have hlb := hEge b hbE
            have hva : a.frame.x = L₀ := by omega
            have hvb : b.frame.x = L₀ := by omega
            rw [if_pos (by omega : a.frame.x = b.frame.x)]
            exact hva

/-- A layout that `isValidLayout` accepts for target `T` under the heuristic
field value `m₀` is still accepted when the field itself becomes `T`, as long
as all frame x-coordinates are nonnegative. -/
theorem isValidLayout_preserved (wins : List Window) (m₀ T : Int)
    (hx : ∀ w ∈ wins, 0 ≤ w.frame.x)
    (h : isValidLayout wins m₀ T = .ok .valid) :
    isValidLayout wins T T = .ok .valid := by
  unfold isValidLayout at h
  cases hM : getMainWindows wins m₀ with
  | error e => rw [hM] at h; exact Except.noConfusion h
  | ok mains =>
    rw [hM] at h
    dsimp only at h
    have hM' := hM
    unfold getMainWindows at hM'
    cases hL : getDividingLineXCoordinate wins m₀ with
    | error e => rw [hL] at hM'; exact Except.noConfusion hM'
    | ok L₀ =>
      rw [hL] at hM'
      have hmains : mains = wins.filter (fun w => decide (w.frame.x ≥ L₀)) :=
        (Except.ok.inj hM').symm
      have hL' := hL
      unfold getDividingLineXCoordinate at hL'
      cases hR : getTopRightWindow wins with
      | error e => rw [hR] at hL'; exact Except.noConfusion hL'
      | ok R =>
        rw [hR] at hL'
        have hdl : dividingLineFrom wins m₀ R = L₀ := Except.ok.inj hL'
        by_cases hTc : T ≠ (mains.length : Int)
        · rw [if_pos hTc] at h
          exact LayoutValidity.noConfusion (Except.ok.inj h)
        · rw [if_neg hTc] at h
          push_neg at hTc
          cases hF : wins.find? (fun w => isMiddleWindowB wins m₀ w) with
          | some w =>
            rw [hF] at h
            exact LayoutValidity.noConfusion (Except.ok.inj h)
          | none =>
            have hmid : ∀ w ∈ wins, w.frame.x = 0 ∨ L₀ ≤ w.frame.x := by
              intro w hw
              have hmw := List.find?_eq_none.mp hF w hw
              unfold isMiddleWindowB isMainWindowB isStackWindowB at hmw
              rw [hL] at hmw
              dsimp only at hmw
              by_cases h0 : w.frame.x = 0
              · exact Or.inl h0
              · right
                by_contra hlt
                apply hmw
                simp [h0, hlt]
            have hstable := dividingLineFrom_stable wins R m₀ L₀ hR hdl hx hmid
            have hTcount : T =
                ((wins.filter (fun w => decide (w.frame.x ≥ L₀))).length : Int) := by
              rw [hTc, hmains]
            have hLT : getDividingLineXCoordinate wins T = .ok L₀ := by
              unfold getDividingLineXCoordinate
              rw [hR]
              exact congrArg Except.ok (by rw [hTcount]; exact hstable)
            have hMT : getMainWindows wins T =
                .ok (wins.filter (fun w => decide (w.frame.x ≥ L₀))) := by
              unfold getMainWindows
              rw [hLT]
            have hpredeq : (fun w => isMiddleWindowB wins T w) =
                (fun w => isMiddleWindowB wins m₀ w) := by
              funext w
              unfold isMiddleWindowB isMainWindowB
              rw [hLT, hL]
            unfold isValidLayout
            rw [hMT]
            dsimp only
            rw [if_neg (fun hc => hc hTcount)]
            rw [hpredeq, hF]

/-! ### C8: the top-level error handler -/

/-- C8.  The top-level error handler distinguishes lock contention from
genuine failures: an error whose `code` is `'ELOCKED'` produces only the
informational "Lock found...aborting" log (it is not reported as a failure),
and every other error is surfaced itself through `console.error`. -/
theorem handleMasterError_distinguishes_elocked (e : JsError) :
    (handleMasterError e = .info "Lock found...aborting" ↔ e.code = some "ELOCKED") ∧
    (e.code ≠ some "ELOCKED" → handleMasterError e = .logError e) := by
  constructor
  · constructor
    · intro h
      unfold handleMasterError at h
      split at h
      · rename_i hb
        exact beq_iff_eq.mp hb
      · exact absurd h (by simp)
    · intro h
      unfold handleMasterError
      rw [if_pos (beq_iff_eq.mpr h)]
  · intro h
    unfold handleMasterError
    rw [if_neg (by simpa using h)]

theorem handleMasterError_distinguishes_elocked_witness :
    handleMasterError ⟨"boom", some "ELOCKED"⟩ = .info "Lock found...aborting" ∧
    handleMasterError ⟨"boom", none⟩ = .logError ⟨"boom", none⟩ :=
  ⟨(handleMasterError_distinguishes_elocked ⟨"boom", some "ELOCKED"⟩).1.mpr rfl,
   (handleMasterError_distinguishes_elocked ⟨"boom", none⟩).2 (by simp)⟩

/-! ### C1: classification partition -/

/-- C1 (amended).  Whenever the computed dividing line is positive, the
classification is a total partition: every window of the snapshot belongs to
exactly one of `getStackWindows`, `getMainWindows` and `getMiddleWindows`,
and every member of those three lists belongs to the snapshot.  (When the
dividing line is `≤ 0` — e.g. a lone window at x = 0 — the stack and main
sets overlap, so the unrestricted claim fails.) -/
theorem classification_partition (wins : List Window) (m L : Int) (mains : List Window)
    (hL : getDividingLineXCoordinate wins m = .ok L)
    (hM : getMainWindows wins m = .ok mains)
    (hpos : 0 < L) :
    (∀ w ∈ wins,
      (w ∈ getStackWindows wins ∧ w ∉ mains ∧ w ∉ getMiddleWindows wins m) ∨
      (w ∉ getStackWindows wins ∧ w ∈ mains ∧ w ∉ getMiddleWindows wins m) ∨
      (w ∉ getStackWindows wins ∧ w ∉ mains ∧ w ∈ getMiddleWindows wins m)) ∧
    (∀ w : Window,
      w ∈ getStackWindows wins ∨ w ∈ mains ∨ w ∈ getMiddleWindows wins m → w ∈ wins) := by
  have hM' : mains = wins.filter (fun w => decide (w.frame.x ≥ L)) := by
    have := (getMainWindows_eq hL).symm.trans hM
    exact (Except.ok.inj this).symm
  subst hM'
  have hmem : ∀ w : Window, w ∈ wins.filter (fun w => decide (w.frame.x ≥ L)) ↔
      w ∈ wins ∧ w.frame.x ≥ L := by
    intro w; simp [List.mem_filter]
  constructor
  · intro w hw
    by_cases h0 : w.frame.x = 0
    · left
      refine ⟨mem_getStackWindows.mpr ⟨hw, h0⟩, ?_, ?_⟩
      · intro hc
        have := (hmem w).mp hc
        omega
      · intro hc
        have := (mem_getMiddleWindows hL).mp hc
        exact this.2.1 h0
    · by_cases hge : w.frame.x ≥ L
      · right; left
        refine ⟨?_, (hmem w).mpr ⟨hw, hge⟩, ?_⟩
        · intro hc
          exact h0 (mem_getStackWindows.mp hc).2
        · intro hc
          exact ((mem_getMiddleWindows hL).mp hc).2.2 hge
      · right; right
        refine ⟨?_, ?_, (mem_getMiddleWindows hL).mpr ⟨hw, h0, hge⟩⟩
        · intro hc
          exact h0 (mem_getStackWindows.mp hc).2
        · intro hc
          exact hge ((hmem w).mp hc).2
  · intro w hw
    rcases hw with h | h | h
    · exact (mem_getStackWindows.mp h).1
    · exact ((hmem w).mp h).1
    · exact ((mem_getMiddleWindows hL).mp h).1

theorem classification_partition_witness :
    (c1b ∈ getStackWindows c1wins ∧ c1b ∉ [c1b] ∧ c1b ∉ getMiddleWindows c1wins 1) ∨
    (c1b ∉ getStackWindows c1wins ∧ c1b ∈ [c1b] ∧ c1b ∉ getMiddleWindows c1wins 1) ∨
    (c1b ∉ getStackWindows c1wins ∧ c1b ∉ [c1b] ∧ c1b ∈ getMiddleWindows c1wins 1) :=
  (classification_partition c1wins 1 640 [c1b] rfl rfl (by decide)).1 c1b (by decide)

/-- C1 counterexample.  For the one-window snapshot at x = 0 with expected
count 1 the computed dividing line is 0, and the window is simultaneously a
stack window and a main window: `getStackWindows` and `getMainWindows` are
not disjoint, refuting the unrestricted pairwise-disjointness claim. -/
theorem classification_partition_counterexample :
    getDividingLineXCoordinate c1wins0 1 = .ok 0 ∧
    getStackWindows c1wins0 = [c1a] ∧
    getMainWindows c1wins0 1 = .ok [c1a] ∧
    ¬ List.Disjoint (getStackWindows c1wins0) [c1a] := by
  refine ⟨rfl, rfl, rfl, ?_⟩
  intro h
  exact h (a := c1a) (by decide) (by decide)

/-! ### C4: dividing-line monotonicity -/

/-- C4 (amended).  The dividing line computed for any expected count `m`
never exceeds the dividing line computed for count 1 (the top-right window's
x-coordinate); the original claim's direction — that a larger count never
yields a smaller dividing line — is refuted by the counterexample below. -/
theorem dividingLine_le_count_one (wins : List Window) (m L L1 : Int)
    (h : getDividingLineXCoordinate wins m = .ok L)
    (h1 : getDividingLineXCoordinate wins 1 = .ok L1) :
    L ≤ L1 := by
  unfold getDividingLineXCoordinate at h h1
  cases hR : getTopRightWindow wins with
  | error e => rw [hR] at h; exact absurd h (by simp)
  | ok R =>
    rw [hR] at h h1
    have h1' : L1 = R.frame.x := by
      have : dividingLineFrom wins 1 R = L1 := Except.ok.inj h1
      rw [← this]
      unfold dividingLineFrom
      rw [if_pos rfl]
    have h' : dividingLineFrom wins m R = L := Except.ok.inj h
    rw [h1', ← h']
    unfold dividingLineFrom
    split
    · exact le_refl _
    · split
      · exact le_refl _
      · split
        · rename_i v hv
          obtain ⟨w, hw, hx⟩ := findDividingPair_mem _ _ _ _ _ hv
          have hwF := ((List.perm_insertionSort xDescOrder _).mem_iff).mp hw
          have := (List.mem_filter.mp hwF).2
          rw [← hx]
          exact of_decide_eq_true this
        · exact le_refl _

theorem dividingLine_le_count_one_witness :
    getDividingLineXCoordinate c4wins 2 = .ok 320 ∧
    getDividingLineXCoordinate c4wins 1 = .ok 640 ∧ (320 : Int) ≤ 640 :=
  ⟨rfl, rfl, dividingLine_le_count_one c4wins 2 320 640 rfl rfl⟩

/-- C4 counterexample.  On a fixed three-window snapshot the dividing line
for expected count 1 is 640 but for count 2 it is 320: increasing the count
*decreased* the dividing line, refuting monotone non-decrease. -/
theorem dividingLine_monotone_counterexample :
    getDividingLineXCoordinate c4wins 1 = .ok 640 ∧
    getDividingLineXCoordinate c4wins 2 = .ok 320 ∧
    ¬ ((640 : Int) ≤ 320) :=
  ⟨rfl, rfl, by decide⟩

/-! ### C9: the unguarded pop in the pull-from-stack loop -/

/-- C9.  In the pull-from-stack phase of `updateWindows`, each iteration pops
the sorted stack-window array with a non-null assertion.  Whenever the loop
has more iterations to run than there are stack windows, the invocation ends
in the unguarded runtime `TypeError` of `stackWindow.app` on `undefined` —
never in a structured `Error`. -/
theorem pullLoop_typeError (env : Env) :
    ∀ (n : Nat) (s : WM) (stackWindows : List Window),
      stackWindows.length < n →
      (pullLoop env n s stackWindows).2 = .error .typeError := by
  intro n
  induction n with
  | zero => intro s ws h; omega
  | succ n ih =>
    intro s ws h
    rw [pullLoop]
    cases hlast : ws.getLast? with
    | none => rfl
    | some w =>
      have hne : ws ≠ [] := by
        intro hnil; rw [hnil] at hlast; simp at hlast
      dsimp only
      cases hmv : moveWindowToMain env s w with
      | mk tr r =>
        cases r with
        | error e =>
          have he : e = .typeError := moveWindowToMain_error hmv
          subst he
          rfl
        | ok s' =>
          dsimp only
          have hlen : ws.dropLast.length < n := by
            have hz : ws.length ≠ 0 := by
              intro h0; exact hne (List.length_eq_zero.mp h0)
            rw [List.length_dropLast]
            omega
          exact ih s' ws.dropLast hlen

theorem pullLoop_typeError_witness :
    (pullLoop c9env 1 c9s []).2 = .error .typeError :=
  pullLoop_typeError c9env 1 c9s [] (by decide)

/-! ### C3: the dividing-line algorithm against its specification -/

theorem findDividingPair_eq_find (k : Nat) (m : Int) :
    ∀ (l : List Window) (i : Nat),
      findDividingPair k m l i =
        (((l.zip l.tail).enumFrom i).find?
          (fun p => p.2.1.frame.x == p.2.2.frame.x &&
            decide (((k + p.1 + 2 : Nat) : Int) ≥ m))).map (fun p => p.2.1.frame.x) := by
  intro l
  induction l with
  | nil => intro i; rfl
  | cons a t ih =>
    intro i
    cases t with
    | nil => rfl
    | cons b rest =>
      rw [findDividingPair]
      have hz : ((a :: b :: rest).zip (a :: b :: rest).tail).enumFrom i =
          (i, (a, b)) :: ((b :: rest).zip (b :: rest).tail).enumFrom (i + 1) := rfl
      rw [hz]
      by_cases hcond : a.frame.x = b.frame.x ∧ ((k + i + 2 : Nat) : Int) ≥ m
      · rw [if_pos hcond]
        rw [List.find?_cons_of_pos _ (by
          rw [Bool.and_eq_true]
          exact ⟨beq_iff_eq.mpr hcond.1, decide_eq_true hcond.2⟩)]
        rfl
      · rw [if_neg hcond]
        rw [List.find?_cons_of_neg _ (by
          simp only [Bool.and_eq_true, beq_iff_eq, decide_eq_true_eq]
          exact fun hc => hcond hc)]
        exact ih (i + 1)

/-- C3.  `getDividingLineXCoordinate` computes exactly the function described
by the specification: the top-right window's `frame.x` when the expected
count is 1; otherwise, with `N` the non-stack windows, `E` those members of
`N` with `frame.x <= R.frame.x` sorted descending and `k = |N| - |E|`, it is
`R.frame.x` when `k >= m`, otherwise the `frame.x` of the first adjacent pair
`E[i], E[i+1]` with equal `frame.x` and `k + i + 2 >= m`, and `R.frame.x`
when no such pair exists. -/
theorem getDividingLineXCoordinate_spec (wins : List Window) (m : Int) :
    dividingLineSpec wins m = getDividingLineXCoordinate wins m := by
  unfold dividingLineSpec getDividingLineXCoordinate
  cases getTopRightWindow wins with
  | error e => rfl
  | ok R =>
    dsimp only
    unfold dividingLineFrom
    by_cases h1 : m = 1
    · rw [if_pos h1, if_pos h1]
    · rw [if_neg h1, if_neg h1]
      by_cases h2 : (numWindowsToRightOfTopRightWindow wins R : Int) ≥ m
      · rw [if_pos h2, if_pos h2]
      · rw [if_neg h2, if_neg h2]
        have henum : ((eligibleWindows wins R).zip (eligibleWindows wins R).tail).enum =
            ((eligibleWindows wins R).zip (eligibleWindows wins R).tail).enumFrom 0 := rfl
        rw [henum]
        rw [findDividingPair_eq_find (numWindowsToRightOfTopRightWindow wins R) m
          (eligibleWindows wins R) 0]
        cases (((eligibleWindows wins R).zip (eligibleWindows wins R).tail).enumFrom 0).find?
            (fun p => p.2.1.frame.x == p.2.2.frame.x &&
              decide (((numWindowsToRightOfTopRightWindow wins R + p.1 + 2 : Nat) : Int) ≥ m)) with
        | none => rfl
        | some p => rfl

/-! ### Shared facts about the updateWindows control flow -/

theorem topRight_ok_of_isValidLayout {wins : List Window} {m T : Int} {v : LayoutValidity}
    (h : isValidLayout wins m T = .ok v) : ∃ R, getTopRightWindow wins = .ok R := by
  unfold isValidLayout at h
  cases hM : getMainWindows wins m with
  | error e => rw [hM] at h; exact Except.noConfusion h
  | ok mains =>
    unfold getMainWindows at hM
    cases hL : getDividingLineXCoordinate wins m with
    | error e => rw [hL] at hM; exact Except.noConfusion hM
    | ok L =>
      unfold getDividingLineXCoordinate at hL
      cases hR : getTopRightWindow wins with
      | error e => rw [hR] at hL; exact Except.noConfusion hL
      | ok R => exact ⟨R, rfl⟩

theorem doesStackExist_of_topRight {wins : List Window} {R : Window}
    (hR : getTopRightWindow wins = .ok R) :
    doesStackExist wins = .ok (decide (R.frame.x ≠ 0)) := by
  unfold doesStackExist
  rw [hR]

theorem updateWindowsPhases_called (env : Env) (fuel : Nat) (s : WM) (T : Int) :
    (updateWindowsPhases env fuel s T).2.1 =
      (if T ≠ (s.windowsData.length : Int) then
        match doesStackExist s.windowsData with
        | .error _ => false
        | .ok true => false
        | .ok false => true
      else false) := by
  unfold updateWindowsPhases
  dsimp only
  by_cases hT : T ≠ (s.windowsData.length : Int)
  · rw [if_pos hT, if_pos hT]
    cases hS : doesStackExist s.windowsData with
    | error e => rfl
    | ok b =>
      cases b with
      | true =>
        dsimp only
        by_cases hN : s.windowsData.length > 2
        · rw [if_pos hN]
        · rw [if_neg hN]
      | false =>
        dsimp only
        cases hC : createStack env s with
        | mk tr r =>
          cases r with
          | error e => rfl
          | ok s1 =>
            dsimp only
            by_cases hN : s.windowsData.length > 2
            · rw [if_pos hN]
            · rw [if_neg hN]
  · rw [if_neg hT, if_neg hT]
    dsimp only
    by_cases hN : s.windowsData.length > 2
    · rw [if_pos hN]
    · rw [if_neg hN]

theorem updateWindows_called_eq_phases (env : Env) (fuel : Nat) (s : WM) (T : Int)
    {r : String}
    (hInv : isValidLayout s.windowsData s.expectedCurrentNumMainWindows T = .ok (.invalid r)) :
    (updateWindows env fuel s T).calledCreateStack = (updateWindowsPhases env fuel s T).2.1 := by
  unfold updateWindows
  rw [hInv]
  cases hP : updateWindowsPhases env fuel s T with
  | mk tr rest =>
    cases rest with
    | mk called pres =>
      cases pres with
      | thrown e => rfl
      | diverged => rfl
      | ok s4 =>
        dsimp only
        cases isValidLayout s4.windowsData s4.expectedCurrentNumMainWindows T with
        | error e => rfl
        | ok v =>
          cases v with
          | valid => rfl
          | invalid rr => rfl

/-! ### C6: when createStack is invoked -/

/-- C6 (amended).  Within an invocation of `updateWindows` on an invalid
layout, `createStack` is invoked if and only if the stack region is absent
(the top-right window's `frame.x` equals 0) and the target master count
*differs from* the total window count.  (The source tests
`targetNumMainWindows !== numWindows`, not `<`, so a target exceeding the
window count also triggers stack creation — see the counterexample.) -/
theorem createStack_called_iff (env : Env) (fuel : Nat) (s : WM) (T : Int) (r : String)
    (hInv : isValidLayout s.windowsData s.expectedCurrentNumMainWindows T = .ok (.invalid r)) :
    ((updateWindows env fuel s T).calledCreateStack = true ↔
      (doesStackExist s.windowsData = .ok false ∧ T ≠ (s.windowsData.length : Int))) := by
  obtain ⟨R, hR⟩ := topRight_ok_of_isValidLayout hInv
  have hS := doesStackExist_of_topRight hR
  rw [updateWindows_called_eq_phases env fuel s T hInv,
    updateWindowsPhases_called env fuel s T]
  by_cases hT : T ≠ (s.windowsData.length : Int)
  · rw [if_pos hT, hS]
    by_cases hx : R.frame.x ≠ 0
    · rw [decide_eq_true hx]
      constructor
      · intro h; exact Bool.noConfusion h
      · intro h; exact Bool.noConfusion (Except.ok.inj h.1)
    · rw [decide_eq_false hx]
      constructor
      · intro _; exact ⟨rfl, hT⟩
      · intro _; rfl
  · rw [if_neg hT]
    constructor
    · intro h; exact Bool.noConfusion h
    · intro h; exact absurd h.2 hT

theorem createStack_called_iff_witness :
    (updateWindows c6env 1 c6s 3).calledCreateStack = true :=
  (createStack_called_iff c6env 1 c6s 3
      "Number of main windows does not equal expected number of main windows (2/1)"
      rfl).mpr
    ⟨rfl, by decide⟩

/-- C6 counterexample.  With two windows stacked on the left edge (stack
region absent) and a target of three master windows — *more* than the total
window count — `updateWindows` still invokes `createStack`, refuting the
claim that the invocation happens only when the target is strictly less than
the window count. -/
theorem createStack_called_counterexample :
    isValidLayout c6s.windowsData c6s.expectedCurrentNumMainWindows 3 =
      .ok (.invalid
        "Number of main windows does not equal expected number of main windows (2/1)") ∧
    (updateWindows c6env 1 c6s 3).calledCreateStack = true ∧
    ¬ ((3 : Int) < (c6s.windowsData.length : Int)) :=
  ⟨rfl, rfl, by decide⟩

/-! ### C7: the final re-validation -/

/-- C7.  Every invocation of `updateWindows` that reaches the final
re-validation step raises an unrecoverable structured `Error` when the
re-validation reports invalid, and completes successfully (persisting the
target) when it reports valid. -/
theorem updateWindows_final_revalidation (env : Env) (fuel : Nat) (s : WM) (T : Int)
    (r0 : String) (tr : List Cmd) (called : Bool) (s4 : WM)
    (hInit : isValidLayout s.windowsData s.expectedCurrentNumMainWindows T = .ok (.invalid r0))
    (hPhases : updateWindowsPhases env fuel s T = (tr, called, .ok s4)) :
    (∀ rr, isValidLayout s4.windowsData s4.expectedCurrentNumMainWindows T = .ok (.invalid rr) →
      updateWindows env fuel s T =
        ⟨tr, called,
          .thrown (.error ("updateLayout() ended with an invalid layout; reason: " ++ r0))⟩) ∧
    (isValidLayout s4.windowsData s4.expectedCurrentNumMainWindows T = .ok .valid →
      updateWindows env fuel s T =
        ⟨tr, called, .ok { s4 with expectedCurrentNumMainWindows := T }⟩) := by
  constructor
  · intro rr hrr
    unfold updateWindows
    rw [hInit, hPhases]
    dsimp only
    rw [hrr]
  · intro hv
    unfold updateWindows
    rw [hInit, hPhases]
    dsimp only
    rw [hv]

theorem updateWindows_final_revalidation_witness :
    updateWindows c7env 1 c7s 3 =
      ⟨[Cmd.warp 2 1], true,
        .thrown (.error ("updateLayout() ended with an invalid layout; reason: " ++ c7reason))⟩ :=
  (updateWindows_final_revalidation c7env 1 c7s 3 c7reason [Cmd.warp 2 1] true c7s
      rfl rfl).1 c7reason rfl

/-! ### C10: persistence of the expected master count -/

/-- C10.  On the already-valid early path `updateWindows` leaves the manager
state (including `expectedCurrentNumMainWindows`) unchanged; the field is
assigned the target value exactly when a full rebalancing pass completes and
survives the final re-validation. -/
theorem expectedCount_persistence (env : Env) (fuel : Nat) (s : WM) (T : Int) :
    (isValidLayout s.windowsData s.expectedCurrentNumMainWindows T = .ok .valid →
      updateWindows env fuel s T = ⟨[], false, .ok s⟩) ∧
    (∀ s', (updateWindows env fuel s T).result = .ok s' →
      isValidLayout s.windowsData s.expectedCurrentNumMainWindows T ≠ .ok .valid →
      s'.expectedCurrentNumMainWindows = T ∧
      ∃ tr called s4, updateWindowsPhases env fuel s T = (tr, called, .ok s4) ∧
        isValidLayout s4.windowsData s4.expectedCurrentNumMainWindows T = .ok .valid ∧
        s' = { s4 with expectedCurrentNumMainWindows := T }) := by
  constructor
  · intro hv
    unfold updateWindows
    rw [hv]
  · intro s' hres hne
    unfold updateWindows at hres
    cases hI : isValidLayout s.windowsData s.expectedCurrentNumMainWindows T with
    | error e => rw [hI] at hres; exact absurd hres (by simp)
    | ok v =>
      cases v with
      | valid => exact absurd hI hne
      | invalid r0 =>
        rw [hI] at hres
        cases hP : updateWindowsPhases env fuel s T with
        | mk tr rest =>
          cases rest with
          | mk called pres =>
            cases pres with
            | thrown e => rw [hP] at hres; exact absurd hres (by simp)
            | diverged => rw [hP] at hres; exact absurd hres (by simp)
            | ok s4 =>
              rw [hP] at hres
              dsimp only at hres
              cases hF : isValidLayout s4.windowsData s4.expectedCurrentNumMainWindows T with
              | error e => rw [hF] at hres; exact absurd hres (by simp)
              | ok v2 =>
                cases v2 with
                | invalid rr => rw [hF] at hres; exact absurd hres (by simp)
                | valid =>
                  rw [hF] at hres
                  dsimp only at hres
                  have hs' : { s4 with expectedCurrentNumMainWindows := T } = s' :=
                    PhaseRes.ok.inj hres
                  refine ⟨by rw [← hs'], tr, called, s4, rfl, hF, hs'.symm⟩

theorem expectedCount_persistence_witness :
    updateWindows c10env 1 c10sValid 1 = ⟨[], false, .ok c10sValid⟩ ∧
    ((⟨c10winsFixed, 2⟩ : WM).expectedCurrentNumMainWindows = 2 ∧
      ∃ tr called s4, updateWindowsPhases c10envPass 2 c10sPass 2 = (tr, called, .ok s4) ∧
        isValidLayout s4.windowsData s4.expectedCurrentNumMainWindows 2 = .ok .valid ∧
        (⟨c10winsFixed, 2⟩ : WM) = { s4 with expectedCurrentNumMainWindows := 2 }) :=
  ⟨(expectedCount_persistence c10env 1 c10sValid 1).1 rfl,
   (expectedCount_persistence c10envPass 2 c10sPass 2).2 ⟨c10winsFixed, 2⟩ rfl
     (by intro h; exact absurd (Except.ok.inj h) (by decide))⟩

/-! ### C5: idempotence of updateWindows -/

/-- C5 (amended).  When `isValidLayout` accepts the snapshot for the target,
`updateWindows` returns immediately with no yabai commands.  Consequently, a
second call with the same target and no intervening external state change
issues no commands — provided every window's `frame.x` is nonnegative.  (With
negative x-coordinates the persisted expected count can shift the dividing
line, so a successful pass does not guarantee the second call is a no-op; see
the counterexample.) -/
theorem updateWindows_idempotent (env : Env) (fuel : Nat) (s : WM) (T : Int) :
    (isValidLayout s.windowsData s.expectedCurrentNumMainWindows T = .ok .valid →
      updateWindows env fuel s T = ⟨[], false, .ok s⟩) ∧
    (∀ (fuel' : Nat) (s' : WM) (tr : List Cmd) (called : Bool),
      updateWindows env fuel s T = ⟨tr, called, .ok s'⟩ →
      (∀ w ∈ s'.windowsData, 0 ≤ w.frame.x) →
      updateWindows env fuel' s' T = ⟨[], false, .ok s'⟩) := by
  constructor
  · intro hv
    unfold updateWindows
    rw [hv]
  · intro fuel' s' tr called hrun hx
    cases hI : isValidLayout s.windowsData s.expectedCurrentNumMainWindows T with
    | error e =>
      unfold updateWindows at hrun
      rw [hI] at hrun
      exact PhaseRes.noConfusion (congrArg UpdateResult.result hrun)
    | ok v =>
      cases v with
      | valid =>
        unfold updateWindows at hrun
        rw [hI] at hrun
        have hs : s = s' := PhaseRes.ok.inj (congrArg UpdateResult.result hrun)
        subst hs
        unfold updateWindows
        rw [hI]
      | invalid r0 =>
        unfold updateWindows at hrun
        rw [hI] at hrun
        cases hP : updateWindowsPhases env fuel s T with
        | mk tr2 rest =>
          cases rest with
          | mk called2 pres =>
            cases pres with
            | thrown e =>
              rw [hP] at hrun
              exact PhaseRes.noConfusion (congrArg UpdateResult.result hrun)
            | diverged =>
              rw [hP] at hrun
              exact PhaseRes.noConfusion (congrArg UpdateResult.result hrun)
            | ok s4 =>
              rw [hP] at hrun
              dsimp only at hrun
              cases hF : isValidLayout s4.windowsData s4.expectedCurrentNumMainWindows T with
              | error e =>
                rw [hF] at hrun
                exact PhaseRes.noConfusion (congrArg UpdateResult.result hrun)
              | ok v2 =>
                cases v2 with
                | invalid rr =>
                  rw [hF] at hrun
                  exact PhaseRes.noConfusion (congrArg UpdateResult.result hrun)
                | valid =>
                  rw [hF] at hrun
                  dsimp only at hrun
                  have hs' : { s4 with expectedCurrentNumMainWindows := T } = s' :=
                    PhaseRes.ok.inj (congrArg UpdateResult.result hrun)
                  have hx4 : ∀ w ∈ s4.windowsData, 0 ≤ w.frame.x := by
                    intro w hw
                    apply hx
                    rw [← hs']
                    exact hw
                  have hpres := isValidLayout_preserved s4.windowsData
                    s4.expectedCurrentNumMainWindows T hx4 hF
                  have hvalid' : isValidLayout s'.windowsData
                      s'.expectedCurrentNumMainWindows T = .ok .valid := by
                    rw [← hs']
                    exact hpres
                  unfold updateWindows
                  rw [hvalid']

theorem updateWindows_idempotent_witness :
    updateWindows c5venv 1 c5vs 1 = ⟨[], false, .ok c5vs⟩ ∧
    updateWindows c5venv 2 c5vs 1 = ⟨[], false, .ok c5vs⟩ :=
  ⟨(updateWindows_idempotent c5venv 1 c5vs 1).1 rfl,
   (updateWindows_idempotent c5venv 1 c5vs 1).2 2 c5vs [] false
     ((updateWindows_idempotent c5venv 1 c5vs 1).1 rfl) (by decide)⟩

/-- C5 counterexample.  A first `updateWindows` pass that succeeds (one warp,
final re-validation passes, the expected count is persisted as 3) leaves a
snapshot with windows at x = -4; with no intervening external state change,
the second call with the same target re-derives the dividing line under the
new expected count, finds the layout invalid, and issues a command — its
trace is nonempty, refuting the unconditional two-call idempotence claim. -/
theorem updateWindows_idempotent_counterexample :
    updateWindows c5env 5 c5s0 3 = ⟨[Cmd.warp 3 2], false, .ok c5s1⟩ ∧
    (updateWindows c5env 1 c5s1 3).trace = [Cmd.warp 2 1] ∧
    (updateWindows c5env 1 c5s1 3).trace ≠ [] :=
  ⟨rfl, rfl, by decide⟩
